import Mathlib

/-!
Shallow embedding of the image-optimizer server (src/main.rs): the bounded
in-memory image cache, its FIFO-by-insertion-time eviction, TTL lookup,
cache-key derivation, and the request handler `optimize_image`.

The cache `HashMap<String, CacheEntry>` is modelled as an association list
with pairwise-distinct keys (`KeysNodup`); `Instant` timestamps become `Nat`
seconds; byte buffers become `List Nat`.  External collaborators that are not
part of this repository (the `reqwest` fetch, the `image` crate's
decode/resize/encode, the `sha1` digest) are passed in as function
parameters; the control flow around them is translated from the source.
-/

/-- TTL constant, from `const CACHE_TTL: Duration = Duration::from_secs(3600)`. -/
def CACHE_TTL : Nat := 3600

/-- Size ceiling constant, from `const CACHE_MAX_SIZE: usize = 150 * 1024 * 1024`. -/
def CACHE_MAX_SIZE : Nat := 150 * 1024 * 1024

/-- Status code `StatusCode::BAD_REQUEST`. -/
def BAD_REQUEST : Nat := 400

/-- Status code `StatusCode::INTERNAL_SERVER_ERROR`. -/
def INTERNAL_SERVER_ERROR : Nat := 500

/-- A status in the 4xx range, i.e. a client-facing failure. -/
def isClientError (s : Nat) : Prop := 400 ≤ s ∧ s < 500

/-- A status in the 5xx range, i.e. a server-facing failure. -/
def isServerError (s : Nat) : Prop := 500 ≤ s ∧ s < 600

/-- Mirrors `struct ProcessedImageResult` from the source; `data` is the
processed byte buffer, modelled as a list of bytes. -/
structure ProcessedImageResult where
  data : List Nat
  content_type : String
  original_width : Nat
  original_height : Nat
  etag : String
deriving DecidableEq, Repr

/-- Mirrors `struct CacheEntry` from the source, fields `result`, `size`
and `inserted`; `inserted` is the `Instant` at insertion, modelled as
`Nat` seconds. -/
structure CacheEntry where
  result : ProcessedImageResult
  size : Nat
  inserted : Nat
deriving DecidableEq, Repr

/-- The `HashMap<String, CacheEntry>` behind the mutex, modelled as an
association list whose keys are pairwise distinct. -/
abbrev Cache := List (String × CacheEntry)

/-- Model of `HashMap::get`: the entry stored under `k`, if any. -/
def mapGet : Cache → String → Option CacheEntry
  | [], _ => none
  | p :: rest, k => if p.1 = k then some p.2 else mapGet rest k

/-- Model of `HashMap::remove` on the map: drop every pair keyed `k`
(on a `KeysNodup` list this is the single stored pair). -/
def eraseKey : Cache → String → Cache
  | [], _ => []
  | p :: rest, k => if p.1 = k then eraseKey rest k else p :: eraseKey rest k

/-- Model of `HashMap::insert`: replace any previous entry for `k` by `e`. -/
def mapInsert (c : Cache) (k : String) (e : CacheEntry) : Cache :=
  eraseKey c k ++ [(k, e)]

/-- Removing a whole list of keys in order; the overall effect of the
eviction loop on the map is of this shape. -/
def eraseKeys (c : Cache) (ks : List String) : Cache := ks.foldl eraseKey c

/-- Accounted total, `cache.values().map(|e| e.size).sum()` in the source. -/
def totalSize (c : Cache) : Nat := (c.map (fun p => p.2.size)).sum

/-- The `HashMap` key-uniqueness invariant of the model. -/
def KeysNodup (c : Cache) : Prop := (c.map Prod.fst).Nodup

instance (c : Cache) : Decidable (KeysNodup c) :=
  inferInstanceAs (Decidable (c.map Prod.fst).Nodup)

instance (s : Nat) : Decidable (isClientError s) :=
  inferInstanceAs (Decidable (400 ≤ s ∧ s < 500))

instance (s : Nat) : Decidable (isServerError s) :=
  inferInstanceAs (Decidable (500 ≤ s ∧ s < 600))

/-- The `(key, inserted)` vector of `enforce_cache_limit`, sorted ascending
by insertion time (`keys.sort_by_key(|(_, inserted)| *inserted)`). -/
def sortedPairs (c : Cache) : List (String × Nat) :=
  List.insertionSort (fun a b => a.2 ≤ b.2) (c.map (fun p => (p.1, p.2.inserted)))

/-- The `for (key, _) in keys` loop of `enforce_cache_limit`: remove the
entry for each key in turn, subtract its size from the running total, and
stop as soon as the total is at or under `CACHE_MAX_SIZE`. -/
def evictLoop : Nat → List (String × Nat) → Cache → Cache
  | _, [], c => c
  | total, (k, _) :: rest, c =>
    match mapGet c k with
    | some entry =>
      let total' := total - entry.size
      let c' := eraseKey c k
      if total' ≤ CACHE_MAX_SIZE then c' else evictLoop total' rest c'
    | none => if total ≤ CACHE_MAX_SIZE then c else evictLoop total rest c

/-- Model of `fn enforce_cache_limit`: return unchanged when the accounted total is
within the ceiling, otherwise evict in ascending `inserted` order. -/
def enforce_cache_limit (c : Cache) : Cache :=
  if totalSize c ≤ CACHE_MAX_SIZE then c
  else evictLoop (totalSize c) (sortedPairs c) c

/-- The insert-then-enforce step performed inside the cache write critical
section of `optimize_image` (lines 121-132 of the source). -/
def putAndEnforce (c : Cache) (k : String) (e : CacheEntry) : Cache :=
  enforce_cache_limit (mapInsert c k e)

/-- A whole sequence of puts each immediately followed by eviction
enforcement, starting from the empty cache the process boots with. -/
def runPuts (ops : List (String × CacheEntry)) : Cache :=
  ops.foldl (fun c p => putAndEnforce c p.1 p.2) []

/-- The `cache_key` of `optimize_image`: the url, the width defaulting to
0, the height defaulting to 0 and the quality defaulting to 80, joined by
colons, exactly as the format string at lines 76-82 builds it. -/
def cacheKeyOf (image_url : String) (width height quality : Option Nat) : String :=
  image_url ++ ":" ++ toString (width.getD 0) ++ ":" ++ toString (height.getD 0)
    ++ ":" ++ toString (quality.getD 80)

/-- The cache-probe step of `optimize_image` (lines 85-96): a stored entry
counts as a hit only while `entry.inserted.elapsed() < CACHE_TTL`; an
expired entry falls through as a miss without being removed. -/
def cacheLookup (c : Cache) (k : String) (now : Nat) : Option CacheEntry :=
  match mapGet c k with
  | some entry => if now - entry.inserted < CACHE_TTL then some entry else none
  | none => none

/-- The `(StatusCode::OK, headers, data)` success response of
`optimize_image`. -/
structure HttpResponse where
  status : Nat
  contentType : String
  cacheControl : String
  etag : String
  body : List Nat
deriving DecidableEq, Repr

/-- What one `optimize_image` call produces: the HTTP result
(`Except.error s` models `Err(StatusCode)`), the cache state after the call,
and whether the expensive fetch-and-process computation was entered
(instrumentation for the re-computation claims; not a field of the source). -/
structure ReqOutcome where
  response : Except Nat HttpResponse
  cache : Cache
  computeRan : Bool
deriving Repr

/-- Model of `async fn optimize_image`, with the out-of-repository collaborators
passed in: `fetch` is the `reqwest::get(..).bytes()` pipeline (errors map to
`BAD_REQUEST`), `process` is `process_image` (errors map to
`INTERNAL_SERVER_ERROR`), `sha1hex` is the hex SHA-1 digest used as etag.
Control flow is translated line for line: probe the cache and return a fresh
hit; otherwise fetch, process, attach the etag, insert, enforce the size
ceiling, and respond. -/
def optimize_image (fetch : String → Except Unit (List Nat))
    (process : List Nat → Except String ProcessedImageResult)
    (sha1hex : List Nat → String)
    (now : Nat) (c : Cache) (image_url : String)
    (width height quality : Option Nat) : ReqOutcome :=
  let cache_key := cacheKeyOf image_url width height quality
  match cacheLookup c cache_key now with
  | some entry =>
    { response := Except.ok
        { status := 200, contentType := entry.result.content_type,
          cacheControl := "public, max-age=3600", etag := entry.result.etag,
          body := entry.result.data },
      cache := c, computeRan := false }
  | none =>
    match fetch image_url with
    | Except.error _ =>
      { response := Except.error BAD_REQUEST, cache := c, computeRan := true }
    | Except.ok image_bytes =>
      match process image_bytes with
      | Except.error _ =>
        { response := Except.error INTERNAL_SERVER_ERROR, cache := c,
          computeRan := true }
      | Except.ok result0 =>
        let etag := sha1hex result0.data
        let result := { result0 with etag := etag }
        let c' := putAndEnforce c cache_key
          { result := result, size := result.data.length, inserted := now }
        { response := Except.ok
            { status := 200, contentType := result.content_type,
              cacheControl := "public, max-age=3600", etag := etag,
              body := result.data },
          cache := c', computeRan := true }

/-- Model of `fn process_image`, with the `image` crate abstracted: `decode` is the
format-guessing reader plus `reader.decode()` (both error arms of the
source), `dims` reads the decoded dimensions, `transform` is the MAX_DIM
downscale plus the user-parameter resize (pure, total in the source), and
`encodeJpeg` is the quality-parameterised JPEG encoder.  On success the
result carries the encoder output, the literal content type
`"image/jpeg"`, the pre-transform dimensions, and an empty etag. -/
def process_image {Img : Type} (decode : List Nat → Except String Img)
    (dims : Img → Nat × Nat)
    (transform : Img → Option Nat → Option Nat → Img)
    (encodeJpeg : Img → Nat → Except String (List Nat))
    (data : List Nat) (width height quality : Option Nat) :
    Except String ProcessedImageResult :=
  match decode data with
  | Except.error e => Except.error e
  | Except.ok img =>
    let original_width := (dims img).1
    let original_height := (dims img).2
    let img2 := transform img width height
    let q := min (max (quality.getD 80) 1) 100
    match encodeJpeg img2 q with
    | Except.error e => Except.error e
    | Except.ok output =>
      Except.ok
        { data := output, content_type := "image/jpeg",
          original_width := original_width,
          original_height := original_height, etag := "" }

/-- Repeated `optimize_image` calls with the same parameters at the given
sequence of times; returns the final cache and how many of the calls entered
the expensive computation. -/
def runSeq (fetch : String → Except Unit (List Nat))
    (process : List Nat → Except String ProcessedImageResult)
    (sha1hex : List Nat → String) (url : String)
    (width height quality : Option Nat) :
    List Nat → Cache → Cache × Nat
  | [], c => (c, 0)
  | t :: ts, c =>
    let o := optimize_image fetch process sha1hex t c url width height quality
    let r := runSeq fetch process sha1hex url width height quality ts o.cache
    (r.1, (if o.computeRan then 1 else 0) + r.2)

/-- Where one request task stands.  The source holds the cache mutex only
for the lookup and only for the insert-plus-eviction, and runs the
fetch-and-process computation in between with no lock held, so a task is a
sequence of three atomic steps against the shared cache. -/
inductive ReqPhase where
  | start : ReqPhase
  | missed : ReqPhase
  | computed : CacheEntry → ReqPhase
  | doneHit : CacheEntry → ReqPhase
  | doneStored : ReqPhase
deriving DecidableEq, Repr

/-- Shared state for two concurrent requests of the same key: the cache, a
counter of how many times the expensive computation ran (the synthetic
instrumented compute function of the coalescing property), and the phase
of each task. -/
structure SysState where
  cache : Cache
  counter : Nat
  tA : ReqPhase
  tB : ReqPhase
deriving DecidableEq, Repr

/-- One atomic step of a request task, following `optimize_image` under the
source's locking: `start` performs the locked cache probe (lines 85-96) and
either finishes as a hit or records the miss; `missed` runs the unlocked
fetch-and-process computation (lines 99-118), bumping the instrumentation
counter and producing `entry`; `computed` performs the locked
insert-plus-`enforce_cache_limit` (lines 121-132). -/
def taskStep (key : String) (now : Nat) (entry : CacheEntry) :
    Cache → Nat → ReqPhase → Cache × Nat × ReqPhase
  | c, cnt, ReqPhase.start =>
    match cacheLookup c key now with
    | some e => (c, cnt, ReqPhase.doneHit e)
    | none => (c, cnt, ReqPhase.missed)
  | c, cnt, ReqPhase.missed => (c, cnt + 1, ReqPhase.computed entry)
  | c, cnt, ReqPhase.computed e => (putAndEnforce c key e, cnt, ReqPhase.doneStored)
  | c, cnt, ReqPhase.doneHit e => (c, cnt, ReqPhase.doneHit e)
  | c, cnt, ReqPhase.doneStored => (c, cnt, ReqPhase.doneStored)

/-- Advance task A (`who = true`) or task B (`who = false`) by one atomic
step. -/
def sysStep (key : String) (now : Nat) (eA eB : CacheEntry) (who : Bool)
    (s : SysState) : SysState :=
  if who then
    let r := taskStep key now eA s.cache s.counter s.tA
    { cache := r.1, counter := r.2.1, tA := r.2.2, tB := s.tB }
  else
    let r := taskStep key now eB s.cache s.counter s.tB
    { cache := r.1, counter := r.2.1, tA := s.tA, tB := r.2.2 }

/-- Run an interleaving (a list of which task holds the mutex next). -/
def runSched (key : String) (now : Nat) (eA eB : CacheEntry)
    (sched : List Bool) (s : SysState) : SysState :=
  sched.foldl (fun s w => sysStep key now eA eB w s) s

/-- Concrete entry builder for the test scenarios: empty payload, the given
accounted size and insertion time. -/
def mkEntry (sz t : Nat) : CacheEntry :=
  { result := { data := [], content_type := "image/jpeg", original_width := 0,
                original_height := 0, etag := "" },
    size := sz, inserted := t }

/-- Three entries each one byte under a third of the ceiling inserted at
times 1 < 2 < 3, plus a fourth that breaches the ceiling, inserted at 4. -/
def cacheFour : Cache :=
  [("k1", mkEntry 52428799 1), ("k2", mkEntry 52428799 2),
   ("k3", mkEntry 52428799 3), ("k4", mkEntry 10000 4)]

/-- A single entry one byte larger than the ceiling. -/
def bigEntry : CacheEntry := mkEntry (CACHE_MAX_SIZE + 1) 0

/-- A one-entry cache inserted at time 100, for the TTL scenario. -/
def cacheOne : Cache := [("k", mkEntry 5 100)]

/-- The entries the two concurrent tasks compute (distinguishable sizes). -/
def entryA : CacheEntry := mkEntry 1 0

/-- See `entryA`. -/
def entryB : CacheEntry := mkEntry 2 0

/-- Both tasks about to probe a cold, empty cache. -/
def coldStart : SysState :=
  { cache := [], counter := 0, tA := ReqPhase.start, tB := ReqPhase.start }

/-- A fetch collaborator that always succeeds with a fixed byte string. -/
def fetchOk : String → Except Unit (List Nat) := fun _ => Except.ok [1, 2, 3]

/-- A fetch collaborator that always fails (unreachable host / timeout). -/
def fetchFail : String → Except Unit (List Nat) := fun _ => Except.error ()

/-- A processing collaborator that always fails. -/
def processFail : List Nat → Except String ProcessedImageResult :=
  fun _ => Except.error "fail"

/-- A decoder that always rejects its input as not being an image. -/
def decodeFailing : List Nat → Except String Unit :=
  fun _ => Except.error "not an image"

/-- A decoder that accepts every input (as the `Unit` image). -/
def decodeOk : List Nat → Except String Unit := fun _ => Except.ok ()

/-- Trivial dimension reader for the `Unit` image type. -/
def unitDims : Unit → Nat × Nat := fun _ => (0, 0)

/-- Trivial resize stage for the `Unit` image type. -/
def unitTransform : Unit → Option Nat → Option Nat → Unit := fun i _ _ => i

/-- Trivial JPEG encoder for the `Unit` image type. -/
def unitEncode : Unit → Nat → Except String (List Nat) := fun _ _ => Except.ok [7]

/-- Variant of `process_image` whose decode stage always fails: every
input is treated as corrupt. -/
def processDecodeFail : List Nat → Except String ProcessedImageResult :=
  fun b => process_image decodeFailing unitDims unitTransform unitEncode b
    none none none

/-- Stand-in for the SHA-1 hex digest. -/
def sha1stub : List Nat → String := fun _ => "etag0"

/-- A cache holding one fresh entry under the key that
`cacheKeyOf "u" none none none` derives. -/
def cacheKeyed : Cache := [("u:0:0:80", mkEntry 5 100)]

instance : IsTotal (String × Nat) (fun a b => a.2 ≤ b.2) :=
  ⟨fun a b => Nat.le_total a.2 b.2⟩

instance : IsTrans (String × Nat) (fun a b => a.2 ≤ b.2) :=
  ⟨fun _ _ _ h h' => Nat.le_trans h h'⟩


/-! ### Association-list lemmas for the cache map -/

theorem mapGet_eq_some_mem : ∀ {c : Cache} {k : String} {e : CacheEntry},
    mapGet c k = some e → (k, e) ∈ c := by
  intro c
  induction c with
  | nil => intro k e h; simp [mapGet] at h
  | cons p rest ih =>
    intro k e h
    simp only [mapGet] at h
    split at h
    · rename_i hk
      injection h with h2
      subst hk; subst h2
      exact List.mem_cons_self _ _
    · exact List.mem_cons_of_mem _ (ih h)

theorem mapGet_eq_none_iff {c : Cache} {k : String} :
    mapGet c k = none ↔ k ∉ c.map Prod.fst := by
  induction c with
  | nil => simp [mapGet]
  | cons p rest ih =>
    simp only [mapGet, List.map_cons, List.mem_cons]
    split
    · rename_i hk
      simp [hk]
    · rename_i hk
      simp only [ih]
      constructor
      · intro h hcase
        rcases hcase with h1 | h2
        · exact hk h1.symm
        · exact h h2
      · intro h h2
        exact h (Or.inr h2)

theorem mem_mapGet : ∀ {c : Cache}, KeysNodup c → ∀ {k : String} {e : CacheEntry},
    (k, e) ∈ c → mapGet c k = some e := by
  intro c
  induction c with
  | nil => intro _ k e h; simp at h
  | cons p rest ih =>
    intro hnd k e h
    have hnd' : (p.1 :: rest.map Prod.fst).Nodup := by
      simpa [KeysNodup] using hnd
    rcases List.nodup_cons.mp hnd' with ⟨hhead, htail⟩
    simp only [mapGet]
    rcases List.mem_cons.mp h with h1 | h2
    · have h1' : k = p.1 ∧ e = p.2 := by
        constructor
        · exact congrArg Prod.fst h1
        · exact congrArg Prod.snd h1
      rcases h1' with ⟨hk, he⟩
      subst hk; subst he
      simp
    · split
      · rename_i hk
        exfalso
        apply hhead
        subst hk
        exact List.mem_map.mpr ⟨(p.1, e), h2, rfl⟩
      · exact ih htail h2

theorem mem_eraseKey : ∀ {c : Cache} {k : String} {x : String × CacheEntry},
    x ∈ eraseKey c k ↔ x ∈ c ∧ x.1 ≠ k := by
  intro c
  induction c with
  | nil => intro k x; simp [eraseKey]
  | cons p rest ih =>
    intro k x
    simp only [eraseKey]
    split
    · rename_i hk
      rw [ih]
      constructor
      · rintro ⟨hx, hne⟩
        exact ⟨List.mem_cons_of_mem _ hx, hne⟩
      · rintro ⟨hx, hne⟩
        rcases List.mem_cons.mp hx with h1 | h2
        · exact absurd (hk ▸ congrArg Prod.fst h1) hne
        · exact ⟨h2, hne⟩
    · rename_i hk
      constructor
      · intro hx
        rcases List.mem_cons.mp hx with h1 | h2
        · subst h1
          exact ⟨List.mem_cons_self _ _, hk⟩
        · rcases ih.mp h2 with ⟨hmem, hne⟩
          exact ⟨List.mem_cons_of_mem _ hmem, hne⟩
      · rintro ⟨hx, hne⟩
        rcases List.mem_cons.mp hx with h1 | h2
        · exact h1 ▸ List.mem_cons_self _ _
        · exact List.mem_cons_of_mem _ (ih.mpr ⟨h2, hne⟩)

theorem eraseKey_of_not_mem : ∀ {c : Cache} {k : String},
    k ∉ c.map Prod.fst → eraseKey c k = c := by
  intro c
  induction c with
  | nil => intro k _; rfl
  | cons p rest ih =>
    intro k h
    simp only [List.map_cons, List.mem_cons] at h
    push_neg at h
    simp only [eraseKey]
    split
    · rename_i hk
      exact absurd hk.symm h.1
    · rw [ih h.2]

theorem mapGet_eraseKey_self (c : Cache) (k : String) :
    mapGet (eraseKey c k) k = none := by
  rw [mapGet_eq_none_iff]
  intro hmem
  rcases List.mem_map.mp hmem with ⟨x, hx, hfst⟩
  have := (mem_eraseKey.mp hx).2
  exact this hfst

theorem keys_eraseKey_sublist (c : Cache) (k : String) :
    ((eraseKey c k).map Prod.fst).Sublist (c.map Prod.fst) := by
  induction c with
  | nil => simp [eraseKey]
  | cons p rest ih =>
    simp only [eraseKey]
    split
    · exact ih.trans (List.sublist_cons_self _ _)
    · simpa using ih

theorem eraseKey_nodup {c : Cache} (hnd : KeysNodup c) (k : String) :
    KeysNodup (eraseKey c k) :=
  List.Nodup.sublist (keys_eraseKey_sublist c k) hnd

theorem not_mem_keys_eraseKey (c : Cache) (k : String) :
    k ∉ (eraseKey c k).map Prod.fst :=
  mapGet_eq_none_iff.mp (mapGet_eraseKey_self c k)

theorem mapInsert_nodup {c : Cache} (hnd : KeysNodup c) (k : String)
    (e : CacheEntry) : KeysNodup (mapInsert c k e) := by
  unfold KeysNodup mapInsert
  rw [List.map_append]
  refine List.Nodup.append (eraseKey_nodup hnd k) (List.nodup_singleton k) ?_
  intro a ha hb
  simp only [List.map_cons, List.map_nil, List.mem_singleton] at hb
  subst hb
  exact not_mem_keys_eraseKey c a ha

theorem totalSize_cons (p : String × CacheEntry) (rest : Cache) :
    totalSize (p :: rest) = p.2.size + totalSize rest := by
  simp [totalSize]

theorem totalSize_eraseKey : ∀ {c : Cache}, KeysNodup c →
    ∀ {k : String} {e : CacheEntry}, mapGet c k = some e →
    totalSize c = e.size + totalSize (eraseKey c k) := by
  intro c
  induction c with
  | nil => intro _ k e h; simp [mapGet] at h
  | cons p rest ih =>
    intro hnd k e h
    have hnd' : (p.1 :: rest.map Prod.fst).Nodup := by
      simpa [KeysNodup] using hnd
    rcases List.nodup_cons.mp hnd' with ⟨hhead, htail⟩
    simp only [mapGet] at h
    simp only [eraseKey]
    split at h <;> split
    · rename_i hk _
      injection h with h2
      subst hk
      rw [eraseKey_of_not_mem hhead, totalSize_cons, h2]
    · rename_i hk hk2
      exact absurd hk hk2
    · rename_i hk hk2
      exact absurd hk2 hk
    · rename_i hk _
      rw [totalSize_cons, totalSize_cons, ih htail h]
      omega

theorem size_le_totalSize : ∀ {c : Cache} {p : String × CacheEntry},
    p ∈ c → p.2.size ≤ totalSize c := by
  intro c
  induction c with
  | nil => intro p h; simp at h
  | cons q rest ih =>
    intro p h
    rw [totalSize_cons]
    rcases List.mem_cons.mp h with h1 | h2
    · rw [h1]; omega
    · have := ih h2; omega

/-! ### Eviction-loop lemmas -/

theorem mem_eraseKeys : ∀ {ks : List String} {c : Cache} {x : String × CacheEntry},
    x ∈ eraseKeys c ks ↔ x ∈ c ∧ x.1 ∉ ks := by
  intro ks
  induction ks with
  | nil => intro c x; simp [eraseKeys]
  | cons k rest ih =>
    intro c x
    show x ∈ eraseKeys (eraseKey c k) rest ↔ _
    rw [ih]
    rw [mem_eraseKey]
    simp only [List.mem_cons]
    constructor
    · rintro ⟨⟨hx, hk⟩, hrest⟩
      refine ⟨hx, ?_⟩
      intro hcase
      rcases hcase with h1 | h2
      · exact hk h1
      · exact hrest h2
    · rintro ⟨hx, hks⟩
      push_neg at hks
      exact ⟨⟨hx, hks.1⟩, hks.2⟩

theorem eraseKeys_nodup : ∀ {ks : List String} {c : Cache}, KeysNodup c →
    KeysNodup (eraseKeys c ks) := by
  intro ks
  induction ks with
  | nil => intro c h; exact h
  | cons k rest ih =>
    intro c h
    exact ih (eraseKey_nodup h k)

theorem evictLoop_nodup : ∀ (keys : List (String × Nat)) (total : Nat)
    (c : Cache), KeysNodup c → KeysNodup (evictLoop total keys c) := by
  intro keys
  induction keys with
  | nil => intro total c h; exact h
  | cons kt rest ih =>
    intro total c h
    obtain ⟨k, t⟩ := kt
    cases hget : mapGet c k with
    | some entry =>
      simp only [evictLoop, hget]
      split
      · exact eraseKey_nodup h k
      · exact ih _ _ (eraseKey_nodup h k)
    | none =>
      simp only [evictLoop, hget]
      split
      · exact h
      · exact ih _ _ h

theorem evictLoop_totalSize_le : ∀ (keys : List (String × Nat)) (c : Cache)
    (total : Nat), KeysNodup c → total = totalSize c →
    (∀ p ∈ c, p.1 ∈ keys.map Prod.fst) →
    totalSize (evictLoop total keys c) ≤ CACHE_MAX_SIZE := by
  intro keys
  induction keys with
  | nil =>
    intro c total _ htot hcov
    have hc : c = [] := by
      cases c with
      | nil => rfl
      | cons p rest => exact absurd (hcov p (List.mem_cons_self p rest)) (by simp)
    subst hc
    simp [evictLoop, totalSize, CACHE_MAX_SIZE]
  | cons kt rest ih =>
    intro c total hnd htot hcov
    obtain ⟨k, t⟩ := kt
    cases hget : mapGet c k with
    | some entry =>
      have hsplit : totalSize c = entry.size + totalSize (eraseKey c k) :=
        totalSize_eraseKey hnd hget
      simp only [evictLoop, hget]
      split
      · rename_i hle
        omega
      · rename_i hgt
        have htot' : total - entry.size = totalSize (eraseKey c k) := by omega
        refine ih (eraseKey c k) _ (eraseKey_nodup hnd k) htot' ?_
        intro p hp
        rcases mem_eraseKey.mp hp with ⟨hpc, hpk⟩
        have := hcov p hpc
        simp only [List.map_cons, List.mem_cons] at this
        rcases this with h1 | h2
        · exact absurd h1 hpk
        · exact h2
    | none =>
      simp only [evictLoop, hget]
      split
      · rename_i hle
        omega
      · rename_i hgt
        refine ih c total hnd htot ?_
        intro p hp
        have := hcov p hp
        simp only [List.map_cons, List.mem_cons] at this
        rcases this with h1 | h2
        · exfalso
          have hsome : mapGet c p.1 = some p.2 := mem_mapGet hnd hp
          rw [h1, hget] at hsome
          exact Option.noConfusion hsome
        · exact h2

theorem evictLoop_eq_eraseKeys : ∀ (keys : List (String × Nat)) (total : Nat)
    (c : Cache), ∃ n, evictLoop total keys c = eraseKeys c ((keys.take n).map Prod.fst) := by
  intro keys
  induction keys with
  | nil => intro total c; exact ⟨0, rfl⟩
  | cons kt rest ih =>
    intro total c
    obtain ⟨k, t⟩ := kt
    cases hget : mapGet c k with
    | some entry =>
      simp only [evictLoop, hget]
      split
      · refine ⟨1, ?_⟩
        simp [eraseKeys]
      · rcases ih (total - entry.size) (eraseKey c k) with ⟨m, hm⟩
        refine ⟨m + 1, ?_⟩
        simpa [eraseKeys, List.take_succ_cons] using hm
    | none =>
      simp only [evictLoop, hget]
      split
      · refine ⟨0, ?_⟩
        simp [eraseKeys]
      · rcases ih total c with ⟨m, hm⟩
        refine ⟨m + 1, ?_⟩
        have hkc : eraseKey c k = c :=
          eraseKey_of_not_mem (mapGet_eq_none_iff.mp hget)
        simpa [eraseKeys, List.take_succ_cons, hkc] using hm

/-! ### `sortedPairs` lemmas -/

theorem mem_sortedPairs {c : Cache} {x : String × Nat} :
    x ∈ sortedPairs c ↔ ∃ e, (x.1, e) ∈ c ∧ e.inserted = x.2 := by
  unfold sortedPairs
  rw [List.mem_insertionSort]
  rw [List.mem_map]
  constructor
  · rintro ⟨p, hp, hx⟩
    refine ⟨p.2, ?_, ?_⟩
    · have h1 : x.1 = p.1 := by rw [← hx]
      rw [h1]
      exact hp
    · have h2 : x.2 = p.2.inserted := by rw [← hx]
      rw [h2]
  · rintro ⟨e, he, hins⟩
    refine ⟨(x.1, e), he, ?_⟩
    rw [hins]

theorem pair_mem_sortedPairs {c : Cache} {p : String × CacheEntry} (hp : p ∈ c) :
    (p.1, p.2.inserted) ∈ sortedPairs c :=
  mem_sortedPairs.mpr ⟨p.2, hp, rfl⟩

theorem sortedPairs_sorted (c : Cache) :
    List.Sorted (fun a b => a.2 ≤ b.2) (sortedPairs c) :=
  List.sorted_insertionSort _ _

theorem sortedPairs_cov {c : Cache} {p : String × CacheEntry} (hp : p ∈ c) :
    p.1 ∈ (sortedPairs c).map Prod.fst :=
  List.mem_map.mpr ⟨(p.1, p.2.inserted), pair_mem_sortedPairs hp, rfl⟩

/-! ### `enforce_cache_limit` lemmas -/

theorem enforce_totalSize_le {c : Cache} (hnd : KeysNodup c) :
    totalSize (enforce_cache_limit c) ≤ CACHE_MAX_SIZE := by
  unfold enforce_cache_limit
  split
  · assumption
  · exact evictLoop_totalSize_le (sortedPairs c) c (totalSize c) hnd rfl
      (fun p hp => sortedPairs_cov hp)

theorem enforce_nodup {c : Cache} (hnd : KeysNodup c) :
    KeysNodup (enforce_cache_limit c) := by
  unfold enforce_cache_limit
  split
  · assumption
  · exact evictLoop_nodup _ _ _ hnd

theorem enforce_subset {c : Cache} {p : String × CacheEntry}
    (hp : p ∈ enforce_cache_limit c) : p ∈ c := by
  unfold enforce_cache_limit at hp
  split at hp
  · exact hp
  · rcases evictLoop_eq_eraseKeys (sortedPairs c) (totalSize c) c with ⟨n, hn⟩
    rw [hn] at hp
    exact (mem_eraseKeys.mp hp).1

theorem mapGet_ne_none_of_mem {c : Cache} {k : String} {e : CacheEntry}
    (h : (k, e) ∈ c) : mapGet c k ≠ none := by
  intro hn
  exact (mapGet_eq_none_iff.mp hn) (List.mem_map.mpr ⟨(k, e), h, rfl⟩)

theorem entry_unique {c : Cache} (hnd : KeysNodup c) {k : String}
    {a b : CacheEntry} (ha : (k, a) ∈ c) (hb : (k, b) ∈ c) : a = b := by
  have h1 := mem_mapGet hnd ha
  have h2 := mem_mapGet hnd hb
  rw [h1] at h2
  exact Option.some.inj h2

theorem mapGet_evictLoop_none {c : Cache} {k : String}
    (h : mapGet c k = none) (total : Nat) (keys : List (String × Nat)) :
    mapGet (evictLoop total keys c) k = none := by
  rcases evictLoop_eq_eraseKeys keys total c with ⟨n, hn⟩
  rw [hn]
  cases hg : mapGet (eraseKeys c ((keys.take n).map Prod.fst)) k with
  | none => rfl
  | some e =>
    exfalso
    have hmem := mapGet_eq_some_mem hg
    have hc := (mem_eraseKeys.mp hmem).1
    exact mapGet_ne_none_of_mem hc h

theorem sortedPairs_head_of_oldest {c : Cache} {p0 : String × CacheEntry}
    (hp0 : p0 ∈ c)
    (hold : ∀ q ∈ c, q ≠ p0 → p0.2.inserted < q.2.inserted) :
    ∃ tail, sortedPairs c = (p0.1, p0.2.inserted) :: tail := by
  have hmem : (p0.1, p0.2.inserted) ∈ sortedPairs c := pair_mem_sortedPairs hp0
  cases hsp : sortedPairs c with
  | nil => rw [hsp] at hmem; simp at hmem
  | cons h tail =>
    refine ⟨tail, ?_⟩
    have hsorted := sortedPairs_sorted c
    rw [hsp] at hsorted
    rcases List.sorted_cons.mp hsorted with ⟨hhead, _⟩
    rw [hsp] at hmem
    rcases List.mem_cons.mp hmem with h1 | h2
    · rw [← h1]
    · have hle : h.2 ≤ p0.2.inserted := hhead _ h2
      have hh : h ∈ sortedPairs c := by rw [hsp]; exact List.mem_cons_self _ _
      rcases mem_sortedPairs.mp hh with ⟨e, he, hins⟩
      by_cases hq : (h.1, e) = p0
      · have hfst : h.1 = p0.1 := congrArg Prod.fst hq
        have hsnd : e = p0.2 := congrArg Prod.snd hq
        have : h = (h.1, h.2) := rfl
        rw [this, hfst, ← hins, hsnd]
      · exfalso
        have hlt : p0.2.inserted < e.inserted := hold (h.1, e) he hq
        omega

theorem enforce_oldest_evicted {c : Cache} (hnd : KeysNodup c)
    (hover : CACHE_MAX_SIZE < totalSize c) {p0 : String × CacheEntry}
    (hp0 : p0 ∈ c)
    (hold : ∀ q ∈ c, q ≠ p0 → p0.2.inserted < q.2.inserted) :
    mapGet (enforce_cache_limit c) p0.1 = none := by
  unfold enforce_cache_limit
  split
  · omega
  · rcases sortedPairs_head_of_oldest hp0 hold with ⟨tail, hsp⟩
    rw [hsp]
    have hget : mapGet c p0.1 = some p0.2 := mem_mapGet hnd hp0
    simp only [evictLoop, hget]
    split
    · exact mapGet_eraseKey_self c p0.1
    · exact mapGet_evictLoop_none (mapGet_eraseKey_self c p0.1) _ _

theorem enforce_upward_closed {c : Cache} (hnd : KeysNodup c)
    {p q : String × CacheEntry} (hp : p ∈ c) (hq : q ∈ c)
    (hlt : p.2.inserted < q.2.inserted)
    (hsurv : mapGet (enforce_cache_limit c) p.1 ≠ none) :
    mapGet (enforce_cache_limit c) q.1 ≠ none := by
  unfold enforce_cache_limit at hsurv ⊢
  split at hsurv
  · rename_i hle
    simp only [if_pos hle]
    exact mapGet_ne_none_of_mem hq
  · rename_i hgt
    simp only [if_neg hgt] at *
    rcases evictLoop_eq_eraseKeys (sortedPairs c) (totalSize c) c with ⟨n, hn⟩
    rw [hn] at hsurv ⊢
    cases hg : mapGet (eraseKeys c (((sortedPairs c).take n).map Prod.fst)) p.1 with
    | none => exact absurd hg hsurv
    | some e =>
      have hmemp := mapGet_eq_some_mem hg
      rcases mem_eraseKeys.mp hmemp with ⟨_, hptake⟩
      have hqtake : q.1 ∉ ((sortedPairs c).take n).map Prod.fst := by
        intro hmem
        rcases List.mem_map.mp hmem with ⟨x, hxtake, hxfst⟩
        have hxsp : x ∈ sortedPairs c := List.mem_of_mem_take hxtake
        rcases mem_sortedPairs.mp hxsp with ⟨e', he', hins⟩
        rw [hxfst] at he'
        have he'q : e' = q.2 := entry_unique hnd he' hq
        have hx2 : x.2 = q.2.inserted := by rw [← hins, he'q]
        have hpsp : (p.1, p.2.inserted) ∈ sortedPairs c := pair_mem_sortedPairs hp
        have hpdrop : (p.1, p.2.inserted) ∈ (sortedPairs c).drop n := by
          have hsplit := List.take_append_drop n (sortedPairs c)
          rw [← hsplit] at hpsp
          rcases List.mem_append.mp hpsp with h1 | h2
          · exact absurd (List.mem_map.mpr ⟨_, h1, rfl⟩) hptake
          · exact h2
        have hcross : ∀ a ∈ (sortedPairs c).take n, ∀ b ∈ (sortedPairs c).drop n,
            a.2 ≤ b.2 := by
          have hsorted := sortedPairs_sorted c
          rw [← List.take_append_drop n (sortedPairs c)] at hsorted
          exact (List.pairwise_append.mp hsorted).2.2
        have := hcross x hxtake (p.1, p.2.inserted) hpdrop
        omega
      have hqin : (q.1, q.2) ∈ eraseKeys c (((sortedPairs c).take n).map Prod.fst) :=
        mem_eraseKeys.mpr ⟨hq, hqtake⟩
      exact mapGet_ne_none_of_mem hqin

/-! ### Lookup and handler support lemmas -/

theorem cacheLookup_none_of_get_none {c : Cache} {k : String}
    (h : mapGet c k = none) (now : Nat) : cacheLookup c k now = none := by
  unfold cacheLookup
  rw [h]

theorem cacheLookup_eq_some_get {c : Cache} {k : String} {now : Nat}
    {e : CacheEntry} (h : cacheLookup c k now = some e) :
    mapGet c k = some e := by
  unfold cacheLookup at h
  cases hg : mapGet c k with
  | none => rw [hg] at h; exact Option.noConfusion h
  | some e' =>
    rw [hg] at h
    dsimp only at h
    split at h
    · exact h
    · exact Option.noConfusion h

theorem runPuts_inv : ∀ (ops : List (String × CacheEntry)) (c : Cache),
    KeysNodup c → totalSize c ≤ CACHE_MAX_SIZE →
    KeysNodup (ops.foldl (fun c p => putAndEnforce c p.1 p.2) c) ∧
    totalSize (ops.foldl (fun c p => putAndEnforce c p.1 p.2) c) ≤ CACHE_MAX_SIZE := by
  intro ops
  induction ops with
  | nil => intro c h1 h2; exact ⟨h1, h2⟩
  | cons p ps ih =>
    intro c h1 h2
    simp only [List.foldl_cons]
    have hnd' : KeysNodup (putAndEnforce c p.1 p.2) :=
      enforce_nodup (mapInsert_nodup h1 p.1 p.2)
    have hle' : totalSize (putAndEnforce c p.1 p.2) ≤ CACHE_MAX_SIZE :=
      enforce_totalSize_le (mapInsert_nodup h1 p.1 p.2)
    exact ih _ hnd' hle'

/-! ### The claims -/

/-- C1: for every sequence of put operations each immediately followed by
eviction enforcement (as `optimize_image` does: insert into the map, then
`enforce_cache_limit`), the sum of the `size` fields of the entries present
never exceeds the configured ceiling of 150 MiB at any observation point
after an enforcement pass.  The code is in fact stricter than the claim: not
even the single-oversized-entry case is left above the ceiling. -/
theorem C1_size_ceiling_invariant :
    CACHE_MAX_SIZE = 150 * 1024 * 1024 ∧
    ∀ ops : List (String × CacheEntry), totalSize (runPuts ops) ≤ CACHE_MAX_SIZE := by
  refine ⟨rfl, ?_⟩
  intro ops
  have h0 : KeysNodup ([] : Cache) := by simp [KeysNodup]
  have h1 : totalSize ([] : Cache) ≤ CACHE_MAX_SIZE := by
    simp [totalSize]
  exact (runPuts_inv ops [] h0 h1).2

/-- C2: whenever the accounted total exceeds the ceiling,
`enforce_cache_limit` removes entries strictly FIFO by `inserted`: the
unique oldest entry is evicted, survivors are upward closed in insertion
time (so everything evicted is older than everything kept), and eviction
ends at or under the ceiling.  In the concrete scenario of three entries
just under a third of the ceiling inserted at times 1 < 2 < 3 plus a
fourth entry breaching the ceiling, exactly the entry inserted first is
evicted. -/
theorem C2_fifo_eviction :
    (∀ c : Cache, KeysNodup c → CACHE_MAX_SIZE < totalSize c →
      ((∀ p0 ∈ c, (∀ q ∈ c, q ≠ p0 → p0.2.inserted < q.2.inserted) →
          mapGet (enforce_cache_limit c) p0.1 = none)
        ∧ (∀ p ∈ c, ∀ q ∈ c, p.2.inserted < q.2.inserted →
            mapGet (enforce_cache_limit c) p.1 ≠ none →
            mapGet (enforce_cache_limit c) q.1 ≠ none)
        ∧ totalSize (enforce_cache_limit c) ≤ CACHE_MAX_SIZE))
    ∧ CACHE_MAX_SIZE < totalSize cacheFour
    ∧ enforce_cache_limit cacheFour =
        [("k2", mkEntry 52428799 2), ("k3", mkEntry 52428799 3),
         ("k4", mkEntry 10000 4)] := by
  refine ⟨?_, by decide, by decide⟩
  intro c hnd hover
  refine ⟨?_, ?_, enforce_totalSize_le hnd⟩
  · intro p0 hp0 hold
    exact enforce_oldest_evicted hnd hover hp0 hold
  · intro p hp q hq hlt hsurv
    exact enforce_upward_closed hnd hp hq hlt hsurv

/-- Witness for C2 at the four-entry scenario cache. -/
theorem C2_fifo_eviction_witness :
    mapGet (enforce_cache_limit cacheFour) "k1" = none ∧
    totalSize (enforce_cache_limit cacheFour) ≤ CACHE_MAX_SIZE := by
  have h1 := C2_fifo_eviction.1 cacheFour (by decide) (by decide)
  exact ⟨h1.1 ("k1", mkEntry 52428799 1) (by decide) (by decide), h1.2.2⟩

/-- C3: an entry stored at time `T = e.inserted` with the configured TTL of
3600 s is returned unchanged by any lookup strictly before `T + CACHE_TTL`
and treated as absent by any lookup at or after `T + CACHE_TTL`, even
though it is still physically present. -/
theorem C3_ttl_expiry (c : Cache) (k : String) (e : CacheEntry)
    (hget : mapGet c k = some e) :
    CACHE_TTL = 3600 ∧
    (∀ now, now < e.inserted + CACHE_TTL → cacheLookup c k now = some e) ∧
    (∀ now, e.inserted + CACHE_TTL ≤ now → cacheLookup c k now = none) := by
  refine ⟨rfl, ?_, ?_⟩
  · intro now h
    unfold cacheLookup
    rw [hget]
    dsimp only
    have hfresh : now - e.inserted < CACHE_TTL := by
      unfold CACHE_TTL at *
      omega
    rw [if_pos hfresh]
  · intro now h
    unfold cacheLookup
    rw [hget]
    dsimp only
    have hstale : ¬ (now - e.inserted < CACHE_TTL) := by
      unfold CACHE_TTL at *
      omega
    rw [if_neg hstale]

/-- Witness for C3: the entry of `cacheOne` (inserted at 100) is a hit at
time 3699 and a miss at time 3700. -/
theorem C3_ttl_expiry_witness :
    cacheLookup cacheOne "k" 3699 = some (mkEntry 5 100) ∧
    cacheLookup cacheOne "k" 3700 = none := by
  have h := C3_ttl_expiry cacheOne "k" (mkEntry 5 100) (by decide)
  exact ⟨h.2.1 3699 (by decide), h.2.2 3700 (by decide)⟩

/-- C4, counterexample to the claim as stated: inserting a single entry
larger than the ceiling into the empty cache and running the eviction pass
does NOT leave that oversized entry alone in the cache; the eviction loop
only stops checking after each removal, so it removes the oversized entry
as well and leaves the cache empty. -/
theorem C4_oversized_entry_counterexample :
    CACHE_MAX_SIZE < bigEntry.size ∧
    putAndEnforce [] "k" bigEntry = [] ∧
    mapGet (putAndEnforce [] "k" bigEntry) "k" = none := by
  decide

/-- C4 amended: an entry larger than the ceiling is still accepted
unconditionally, but the following eviction pass (its break check running
only after each removal) then removes every entry of the cache — the other
entries first, in insertion order, and finally the oversized entry itself —
leaving the cache empty, hence never above the ceiling after the pass. -/
theorem C4_oversized_entry_amended (c : Cache) (k : String) (e : CacheEntry)
    (hnd : KeysNodup c) (hbig : CACHE_MAX_SIZE < e.size)
    (hnew : ∀ p ∈ c, p.2.inserted < e.inserted) :
    putAndEnforce c k e = [] := by
  have hnd1 : KeysNodup (mapInsert c k e) := mapInsert_nodup hnd k e
  have hke : (k, e) ∈ mapInsert c k e := by
    unfold mapInsert
    exact List.mem_append.mpr (Or.inr (List.mem_singleton_self _))
  have hkeout : (k, e) ∉ enforce_cache_limit (mapInsert c k e) := by
    intro hin
    have h1 : e.size ≤ totalSize (enforce_cache_limit (mapInsert c k e)) :=
      size_le_totalSize hin
    have h2 := enforce_totalSize_le hnd1
    omega
  show enforce_cache_limit (mapInsert c k e) = []
  cases hres : enforce_cache_limit (mapInsert c k e) with
  | nil => rfl
  | cons p rest =>
    exfalso
    have hp : p ∈ enforce_cache_limit (mapInsert c k e) := by
      rw [hres]
      exact List.mem_cons_self p rest
    have hpc1 : p ∈ mapInsert c k e := enforce_subset hp
    by_cases hpe : p = (k, e)
    · exact hkeout (hpe ▸ hp)
    · have hpc : p ∈ c := by
        rcases List.mem_append.mp hpc1 with h1 | h2
        · exact (mem_eraseKey.mp h1).1
        · exact absurd (List.mem_singleton.mp h2) hpe
      have hlt : p.2.inserted < e.inserted := hnew p hpc
      have hsurv : mapGet (enforce_cache_limit (mapInsert c k e)) p.1 ≠ none :=
        mapGet_ne_none_of_mem hp
      have hksurv : mapGet (enforce_cache_limit (mapInsert c k e)) k ≠ none :=
        enforce_upward_closed hnd1 hpc1 hke hlt hsurv
      cases hkg : mapGet (enforce_cache_limit (mapInsert c k e)) k with
      | none => exact hksurv hkg
      | some e' =>
        have hmem' := mapGet_eq_some_mem hkg
        have hein : (k, e') ∈ mapInsert c k e := enforce_subset hmem'
        have heq : e' = e := entry_unique hnd1 hein hke
        exact hkeout (heq ▸ hmem')

/-- Witness for the amended C4 at a concrete oversized insert. -/
theorem C4_oversized_entry_amended_witness :
    putAndEnforce [("old", mkEntry 3 0)] "k" (mkEntry (CACHE_MAX_SIZE + 1) 7) = [] :=
  C4_oversized_entry_amended [("old", mkEntry 3 0)] "k"
    (mkEntry (CACHE_MAX_SIZE + 1) 7) (by decide) (by decide) (by decide)

/-- C5: the cache key is a deterministic function of
(source url, width, height, quality); deriving it twice from the same
input gives the same key, and omitting width, height or quality yields
exactly the key of the explicit defaults 0, 0 and 80. -/
theorem C5_key_derivation :
    ∀ (url : String) (w h q : Option Nat),
      (cacheKeyOf url w h q = cacheKeyOf url w h q)
      ∧ (cacheKeyOf url none h q = cacheKeyOf url (some 0) h q)
      ∧ (cacheKeyOf url w none q = cacheKeyOf url w (some 0) q)
      ∧ (cacheKeyOf url w h none = cacheKeyOf url w h (some 80))
      ∧ (cacheKeyOf url none none none = cacheKeyOf url (some 0) (some 0) (some 80)) := by
  intro url w h q
  exact ⟨rfl, rfl, rfl, rfl, rfl⟩

/-- C6: when the computation fails — the fetch errors, or the fetch
succeeds and processing errors — the handler returns an error status
(`BAD_REQUEST` or `INTERNAL_SERVER_ERROR`), the cache is left entirely
unchanged (no negative caching), the computation was entered, and any
number of repeated calls behaves the same way, re-invoking the computation
each time. -/
theorem C6_error_non_caching (fetch : String → Except Unit (List Nat))
    (process : List Nat → Except String ProcessedImageResult)
    (sha1hex : List Nat → String) (url : String)
    (w h q : Option Nat) (c : Cache)
    (hkey : mapGet c (cacheKeyOf url w h q) = none)
    (hfail : ∀ b, fetch url = Except.ok b → ∃ s, process b = Except.error s) :
    (∀ now,
      (optimize_image fetch process sha1hex now c url w h q).cache = c
      ∧ (∃ s, (optimize_image fetch process sha1hex now c url w h q).response
            = Except.error s ∧ (s = BAD_REQUEST ∨ s = INTERNAL_SERVER_ERROR))
      ∧ (optimize_image fetch process sha1hex now c url w h q).computeRan = true)
    ∧ (∀ times, runSeq fetch process sha1hex url w h q times c
        = (c, times.length)) := by
  have hone : ∀ now,
      (optimize_image fetch process sha1hex now c url w h q).cache = c
      ∧ (∃ s, (optimize_image fetch process sha1hex now c url w h q).response
            = Except.error s ∧ (s = BAD_REQUEST ∨ s = INTERNAL_SERVER_ERROR))
      ∧ (optimize_image fetch process sha1hex now c url w h q).computeRan = true := by
    intro now
    have hlook : cacheLookup c (cacheKeyOf url w h q) now = none :=
      cacheLookup_none_of_get_none hkey now
    cases hf : fetch url with
    | error u =>
      refine ⟨?_, ⟨BAD_REQUEST, ?_, Or.inl rfl⟩, ?_⟩ <;>
        simp [optimize_image, hlook, hf]
    | ok b =>
      rcases hfail b hf with ⟨s, hs⟩
      refine ⟨?_, ⟨INTERNAL_SERVER_ERROR, ?_, Or.inr rfl⟩, ?_⟩ <;>
        simp [optimize_image, hlook, hf, hs]
  refine ⟨hone, ?_⟩
  intro times
  induction times with
  | nil => rfl
  | cons t ts ih =>
    simp only [runSeq]
    rw [(hone t).1, ih, (hone t).2.2]
    simp [Nat.add_comm]

/-- Witness for C6: an always-failing fetch over the empty cache, three
calls: the cache stays empty and the computation was entered three times. -/
theorem C6_error_non_caching_witness :
    runSeq fetchFail processFail sha1stub "u" none none none [0, 1, 2] []
      = ([], 3) := by
  have h := C6_error_non_caching fetchFail processFail sha1stub "u"
    none none none [] rfl (fun b hb => nomatch hb)
  exact h.2 [0, 1, 2]

/-- C7, counterexample to the claim as stated: a request whose bytes fail
to decode is answered with `INTERNAL_SERVER_ERROR` (500), which is a
server-facing failure, not the client-facing failure the claim requires
(fetch errors get `BAD_REQUEST`; decode errors do not). -/
theorem C7_decode_error_counterexample :
    (optimize_image fetchOk processDecodeFail sha1stub 0 [] "u"
        none none none).response = Except.error INTERNAL_SERVER_ERROR
    ∧ (optimize_image fetchOk processDecodeFail sha1stub 0 [] "u"
        none none none).cache = []
    ∧ isServerError INTERNAL_SERVER_ERROR
    ∧ ¬ isClientError INTERNAL_SERVER_ERROR := by
  exact ⟨rfl, rfl, by decide, by decide⟩

/-- C7 amended: a request whose input bytes fail to decode is surfaced as a
server-facing failure (`INTERNAL_SERVER_ERROR`, the same status as internal
processing errors — the handler maps every `process_image` error to 500 and
does not distinguish decode errors from encode errors), and nothing is
cached. -/
theorem C7_decode_error_amended {Img : Type}
    (decode : List Nat → Except String Img) (dims : Img → Nat × Nat)
    (transform : Img → Option Nat → Option Nat → Img)
    (encodeJpeg : Img → Nat → Except String (List Nat))
    (fetch : String → Except Unit (List Nat)) (sha1hex : List Nat → String)
    (now : Nat) (c : Cache) (url : String) (w h q : Option Nat)
    (bytes : List Nat) (msg : String)
    (hmiss : cacheLookup c (cacheKeyOf url w h q) now = none)
    (hfetch : fetch url = Except.ok bytes)
    (hdecode : decode bytes = Except.error msg) :
    (optimize_image fetch
        (fun b => process_image decode dims transform encodeJpeg b w h q)
        sha1hex now c url w h q).response = Except.error INTERNAL_SERVER_ERROR
    ∧ (optimize_image fetch
        (fun b => process_image decode dims transform encodeJpeg b w h q)
        sha1hex now c url w h q).cache = c
    ∧ isServerError INTERNAL_SERVER_ERROR := by
  have hproc : process_image decode dims transform encodeJpeg bytes w h q
      = Except.error msg := by
    unfold process_image
    rw [hdecode]
  refine ⟨?_, ?_, by decide⟩ <;> simp [optimize_image, hmiss, hfetch, hproc]

/-- Witness for the amended C7 at the concrete failing decoder. -/
theorem C7_decode_error_amended_witness :
    (optimize_image fetchOk processDecodeFail sha1stub 5 cacheOne "u"
        none none none).response = Except.error INTERNAL_SERVER_ERROR
    ∧ (optimize_image fetchOk processDecodeFail sha1stub 5 cacheOne "u"
        none none none).cache = cacheOne := by
  have h := C7_decode_error_amended decodeFailing unitDims unitTransform
    unitEncode fetchOk sha1stub 5 cacheOne "u" none none none [1, 2, 3]
    "not an image" (by decide) rfl rfl
  exact ⟨h.1, h.2.1⟩

/-- C8, counterexample to the claim as stated: the source has no request
coalescing.  In the interleaving where both tasks take the cache mutex for
their lookup before either finishes (both lookups, then both computations,
then both inserts), the expensive computation for the single cold key runs
twice, not exactly once. -/
theorem C8_coalescing_counterexample :
    (runSched "k" 0 entryA entryB [true, false, true, false, true, false]
        coldStart).counter = 2
    ∧ (runSched "k" 0 entryA entryB [true, false, true, false, true, false]
        coldStart).tA = ReqPhase.doneStored
    ∧ (runSched "k" 0 entryA entryB [true, false, true, false, true, false]
        coldStart).tB = ReqPhase.doneStored
    ∧ ¬ (runSched "k" 0 entryA entryB [true, false, true, false, true, false]
        coldStart).counter = 1 := by
  decide

/-- C8 amended: the source has no coalescing layer, so concurrent cold
requests for the same key may each execute the expensive computation — in
the overlapped interleaving both run it (counter 2) and the entry of the
last writer wins in the cache; coalescing only happens accidentally through the
cache, as in the sequential interleaving where the first request completes
before the second looks up, which computes once and serves the second
request the first one's entry. -/
theorem C8_no_coalescing_amended :
    (runSched "k" 0 entryA entryB [true, false, true, false, true, false]
        coldStart).counter = 2
    ∧ (runSched "k" 0 entryA entryB [true, false, true, false, true, false]
        coldStart).cache = [("k", entryB)]
    ∧ (runSched "k" 0 entryA entryB [true, true, true, false, false, false]
        coldStart).counter = 1
    ∧ (runSched "k" 0 entryA entryB [true, true, true, false, false, false]
        coldStart).tB = ReqPhase.doneHit entryA := by
  decide

/-- C9: every successful `process_image` result carries the literal content
type `"image/jpeg"` whatever the source format, so when every entry already
cached is `"image/jpeg"`, after any `optimize_image` call every cached
entry and every success response still carries `"image/jpeg"`. -/
theorem C9_content_type_jpeg {Img : Type} (decode : List Nat → Except String Img)
    (dims : Img → Nat × Nat) (transform : Img → Option Nat → Option Nat → Img)
    (encodeJpeg : Img → Nat → Except String (List Nat))
    (fetch : String → Except Unit (List Nat)) (sha1hex : List Nat → String)
    (now : Nat) (c : Cache) (url : String) (w h q : Option Nat)
    (hvals : ∀ p ∈ c, p.2.result.content_type = "image/jpeg") :
    (∀ data r, process_image decode dims transform encodeJpeg data w h q
        = Except.ok r → r.content_type = "image/jpeg")
    ∧ (∀ p ∈ (optimize_image fetch
          (fun b => process_image decode dims transform encodeJpeg b w h q)
          sha1hex now c url w h q).cache, p.2.result.content_type = "image/jpeg")
    ∧ (∀ resp, (optimize_image fetch
          (fun b => process_image decode dims transform encodeJpeg b w h q)
          sha1hex now c url w h q).response = Except.ok resp →
        resp.contentType = "image/jpeg") := by
  have hpi : ∀ data r, process_image decode dims transform encodeJpeg data w h q
      = Except.ok r → r.content_type = "image/jpeg" := by
    intro data r hr
    unfold process_image at hr
    cases hd : decode data with
    | error e => rw [hd] at hr; exact Except.noConfusion hr
    | ok img =>
      rw [hd] at hr
      dsimp only at hr
      cases he : encodeJpeg (transform img w h) (min (max (q.getD 80) 1) 100) with
      | error e2 => rw [he] at hr; exact Except.noConfusion hr
      | ok out =>
        rw [he] at hr
        dsimp only at hr
        have h2 := Except.ok.inj hr
        rw [← h2]
  refine ⟨hpi, ?_⟩
  cases hlk : cacheLookup c (cacheKeyOf url w h q) now with
  | some entry =>
    have hmem : (cacheKeyOf url w h q, entry) ∈ c :=
      mapGet_eq_some_mem (cacheLookup_eq_some_get hlk)
    constructor
    · intro p hp
      simp only [optimize_image, hlk] at hp
      exact hvals p hp
    · intro resp hresp
      simp only [optimize_image, hlk] at hresp
      have h2 := Except.ok.inj hresp
      rw [← h2]
      exact hvals (cacheKeyOf url w h q, entry) hmem
  | none =>
    cases hf : fetch url with
    | error u =>
      constructor
      · intro p hp
        simp only [optimize_image, hlk, hf] at hp
        exact hvals p hp
      · intro resp hresp
        simp only [optimize_image, hlk, hf] at hresp
        exact Except.noConfusion hresp
    | ok bytes =>
      cases hpr : process_image decode dims transform encodeJpeg bytes w h q with
      | error msg =>
        constructor
        · intro p hp
          simp only [optimize_image, hlk, hf, hpr] at hp
          exact hvals p hp
        · intro resp hresp
          simp only [optimize_image, hlk, hf, hpr] at hresp
          exact Except.noConfusion hresp
      | ok r0 =>
        have hr0 : r0.content_type = "image/jpeg" := hpi bytes r0 hpr
        constructor
        · intro p hp
          simp only [optimize_image, hlk, hf, hpr] at hp
          unfold putAndEnforce at hp
          have hp2 := enforce_subset hp
          rcases List.mem_append.mp hp2 with h1 | h2
          · exact hvals p (mem_eraseKey.mp h1).1
          · have hpe := List.mem_singleton.mp h2
            rw [hpe]
            exact hr0
        · intro resp hresp
          simp only [optimize_image, hlk, hf, hpr] at hresp
          have h2 := Except.ok.inj hresp
          rw [← h2]
          exact hr0

/-- Witness for C9: a concrete cold request through the always-succeeding
Unit-image pipeline produces the `"image/jpeg"` response. -/
theorem C9_content_type_jpeg_witness :
    (optimize_image fetchOk
        (fun b => process_image decodeOk unitDims unitTransform unitEncode b
          none none none)
        sha1stub 0 [] "u" none none none).response =
      Except.ok { status := 200, contentType := "image/jpeg",
                  cacheControl := "public, max-age=3600", etag := "etag0",
                  body := [7] }
    ∧ HttpResponse.contentType
        { status := 200, contentType := "image/jpeg",
          cacheControl := "public, max-age=3600", etag := "etag0",
          body := [7] } = "image/jpeg" := by
  have h := C9_content_type_jpeg decodeOk unitDims unitTransform unitEncode
    fetchOk sha1stub 0 [] "u" none none none (by simp)
  exact ⟨rfl, h.2.2 _ rfl⟩

/-- C10: a cache lookup never modifies the cache.  On a fresh hit the
handler returns the payload of the stored entry with the cache unchanged; an
entry that is TTL-expired at lookup is reported as a miss but is not
removed by the read path — when the ensuing recomputation fails (so no
replacement happens) it is still physically present afterwards. -/
theorem C10_lookup_pure (fetch : String → Except Unit (List Nat))
    (process : List Nat → Except String ProcessedImageResult)
    (sha1hex : List Nat → String) (now : Nat) (c : Cache) (url : String)
    (w h q : Option Nat) :
    (∀ e, cacheLookup c (cacheKeyOf url w h q) now = some e →
      (optimize_image fetch process sha1hex now c url w h q).cache = c
      ∧ (optimize_image fetch process sha1hex now c url w h q).response
          = Except.ok { status := 200, contentType := e.result.content_type,
                        cacheControl := "public, max-age=3600",
                        etag := e.result.etag, body := e.result.data })
    ∧ (∀ e, mapGet c (cacheKeyOf url w h q) = some e →
        CACHE_TTL ≤ now - e.inserted →
        cacheLookup c (cacheKeyOf url w h q) now = none
        ∧ (fetch url = Except.error () →
            (optimize_image fetch process sha1hex now c url w h q).cache = c
            ∧ mapGet (optimize_image fetch process sha1hex now c url w h q).cache
                (cacheKeyOf url w h q) = some e)) := by
  constructor
  · intro e hlk
    constructor <;> simp [optimize_image, hlk]
  · intro e hget hstale
    have hlk : cacheLookup c (cacheKeyOf url w h q) now = none := by
      unfold cacheLookup
      rw [hget]
      dsimp only
      rw [if_neg (by omega)]
    refine ⟨hlk, ?_⟩
    intro hf
    constructor <;> simp [optimize_image, hlk, hf, hget]

/-- Witness for C10: a fresh hit leaves `cacheKeyed` unchanged, and at time
3700 its entry (inserted at 100, TTL 3600) is a miss yet still present
after a failing recomputation. -/
theorem C10_lookup_pure_witness :
    (optimize_image fetchFail processFail sha1stub 100 cacheKeyed "u"
        none none none).cache = cacheKeyed
    ∧ cacheLookup cacheKeyed (cacheKeyOf "u" none none none) 3700 = none
    ∧ mapGet (optimize_image fetchFail processFail sha1stub 3700 cacheKeyed "u"
        none none none).cache (cacheKeyOf "u" none none none)
      = some (mkEntry 5 100) := by
  refine ⟨?_, ?_, ?_⟩
  · exact ((C10_lookup_pure fetchFail processFail sha1stub 100 cacheKeyed "u"
      none none none).1 (mkEntry 5 100) (by decide)).1
  · exact ((C10_lookup_pure fetchFail processFail sha1stub 3700 cacheKeyed "u"
      none none none).2 (mkEntry 5 100) (by decide) (by decide)).1
  · exact (((C10_lookup_pure fetchFail processFail sha1stub 3700 cacheKeyed "u"
      none none none).2 (mkEntry 5 100) (by decide) (by decide)).2 rfl).2
